import Mathlib

/-!
Verification of the CoNLL-U data model, reader/writer and evaluation
subsystem of the biaffineparser repository.

The embedding models:
* `src/utils/conllu.py` : `parse_conll`, `read_conll`, `dump_conll`, `evaluate`;
* `pytorch/parser.py`   : the corpus-level accumulation loop in `test` and its
  final UAS/LAS report.

Python token dicts hold values that are `None`, strings, or ints; these are
embedded as the inductive `FVal`.  A text file exchanged between the writer and
the reader is embedded as a `List String` of its lines: each
`writer.write(x + "\n")` in `dump_conll` contributes the line `x`, and the bare
`writer.write("\n")` that terminates a sentence block contributes the empty
line.  Fallible operations (file open, malformed line, division by zero, which
raise in Python) return `Option`.

The third-party / out-of-repository collaborators (`conllu.parse_incr`,
`utils.eval`, `model.Evaluator`) are not under `src/`; they are modelled from
the specification and are marked `Modelled from the spec:` below.
-/

namespace Biaffine

/-- A Python field value as stored in a token dict: `None`, a string, or an
integer.  (Non-integer ids such as the range "4-5" are represented by the
parser as non-`vInt` values, mirroring `type(token['id']) is int` tests.) -/
inductive FVal where
  | vNone : FVal
  | vStr (s : String) : FVal
  | vInt (i : Int) : FVal
deriving DecidableEq, Repr

/-- A CoNLL-U token: the ten fields used by `conllu.py`.  A missing key and a
`None` value behave identically in the source (`token.get(k)` yields `None`),
so both are `FVal.vNone`. -/
structure Token where
  id : FVal
  form : FVal
  lemma_ : FVal
  upos : FVal
  xpos : FVal
  feats : FVal
  head : FVal
  deprel : FVal
  deps : FVal
  misc : FVal
deriving DecidableEq, Repr

/-- The synthetic root token built by `_create_root` in `parse_conll`. -/
def create_root : Token :=
  { id := .vInt 0
    form := .vStr "<ROOT>"
    lemma_ := .vStr "<ROOT>"
    upos := .vStr "ROOT"
    xpos := .vStr "ROOT"
    feats := .vStr "_"
    head := .vInt 0
    deprel := .vStr "root"
    deps := .vStr "_"
    misc := .vStr "_" }

/-- `type(token['id']) is int` from `parse_conll`. -/
def isIntId (t : Token) : Bool :=
  match t.id with
  | .vInt _ => true
  | _ => false

/-- `parse_conll` from `src/utils/conllu.py`: start from `[root]`, append the
input tokens whose id is an integer, and yield the result only when it holds
more than the root.  The generator's yields are collected into a list
(`[]` = nothing yielded, `[s]` = one sentence yielded). -/
def parse_conll (tokenlist : List Token) : List (List Token) :=
  let tokens := tokenlist.foldl (fun acc t => if isIntId t then acc ++ [t] else acc) [create_root]
  if tokens.length > 1 then [tokens] else []

/-- `str(v) if v is not None else "_"` from `dump_conll`, specialised to the
decimal rendering Python's `str` gives ints.  `natStr`/`intStr` below supply
the decimal digits. -/
def digitCh (d : Nat) : Char := Char.ofNat (48 + d)

/-- Decimal digits of `n`, most significant first, computed with enough fuel
(`n + 1` always suffices since the recursion divides by 10). -/
def natDigitsAux : Nat → Nat → List Char
  | 0, _ => []
  | fuel + 1, n =>
    if n < 10 then [digitCh n]
    else natDigitsAux fuel (n / 10) ++ [digitCh (n % 10)]

/-- Python `str` on a nonnegative integer. -/
def natStr (n : Nat) : String := String.mk (natDigitsAux (n + 1) n)

/-- Python `str` on an integer. -/
def intStr (i : Int) : String :=
  if i < 0 then String.mk ('-' :: (natStr i.natAbs).data) else natStr i.toNat

/-- The column renderer of `dump_conll`: `str(v) if v is not None else "_"`. -/
def renderField : FVal → String
  | .vNone => "_"
  | .vStr s => s
  | .vInt i => intStr i

/-- The ten columns of one token line, in the fixed `attrs` order of
`dump_conll`. -/
def tokenCols (t : Token) : List String :=
  [renderField t.id, renderField t.form, renderField t.lemma_, renderField t.upos,
   renderField t.xpos, renderField t.feats, renderField t.head, renderField t.deprel,
   renderField t.deps, renderField t.misc]

/-- Python's `"\t".join`. -/
def joinTabs : List String → String
  | [] => ""
  | [c] => c
  | c :: cs => c ++ "\t" ++ joinTabs cs

/-- The line `dump_conll` writes for one token. -/
def lineOf (t : Token) : String := joinTabs (tokenCols t)

/-- `dump_conll` from `src/utils/conllu.py`, with the output sink embedded as
the list of written lines: the nested loop skips the root (`id == 0`), writes
one joined line per remaining token, and writes a bare newline (the empty
line) after each sentence. -/
def dump_conll (docs : List (List Token)) : List String :=
  docs.foldl
    (fun out tokens =>
      (tokens.foldl (fun acc t => if t.id = .vInt 0 then acc else acc ++ [lineOf t]) out) ++ [""])
    []

/-! ### Reader (spec-modelled)

`read_conll` delegates the text-level parsing to the third-party
`conllu.parse_incr`, whose code is not part of this repository.  The functions
up to `parse_incr` are modelled from the spec (§4.2, §6): sentences are
blank-line-delimited blocks; each token line has exactly 10 tab-separated
fields; a pure-integer id (or head) is parsed to an int, any other id stays a
non-integer value; other fields are kept as strings. -/

/-- Modelled from the spec: digit-value of a character, used by the integer-id
parse of the missing `conllu.parse_incr`. -/
def charDigitVal (c : Char) : Option Nat :=
  if 48 ≤ c.toNat ∧ c.toNat ≤ 57 then some (c.toNat - 48) else none

/-- Modelled from the spec: accumulate decimal digits left to right. -/
def parseDigitsAux : List Char → Nat → Option Nat
  | [], acc => some acc
  | c :: cs, acc => (charDigitVal c).bind fun d => parseDigitsAux cs (acc * 10 + d)

/-- Modelled from the spec: parse a nonempty all-digit character list as a
natural number; anything else is not a pure integer. -/
def parseDigits : List Char → Option Nat
  | [] => none
  | c :: cs => parseDigitsAux (c :: cs) 0

/-- Modelled from the spec: the id/head field parse of `conllu.parse_incr`: a
pure integer id becomes an int, any other id (e.g. the range "4-5") stays a
non-integer value. -/
def parseId (s : String) : FVal :=
  match parseDigits s.data with
  | some n => .vInt (n : Int)
  | none => .vStr s

/-- Modelled from the spec: split one line at tab characters. -/
def splitFieldsCh : List Char → List (List Char)
  | [] => [[]]
  | c :: cs =>
    if c = '\t' then [] :: splitFieldsCh cs
    else
      match splitFieldsCh cs with
      | [] => [[c]]
      | f :: fs => (c :: f) :: fs

/-- Modelled from the spec: parse one token line: exactly 10 tab-separated
fields in the fixed column order; id and head are int-parsed, the rest stay
strings.  A malformed line is an error (`none`). -/
def parseLine (s : String) : Option Token :=
  match (splitFieldsCh s.data).map String.mk with
  | [i, fo, le, up, xp, fe, he, dr, dp, mi] =>
    some
      { id := parseId i
        form := .vStr fo
        lemma_ := .vStr le
        upos := .vStr up
        xpos := .vStr xp
        feats := .vStr fe
        head := parseId he
        deprel := .vStr dr
        deps := .vStr dp
        misc := .vStr mi }
  | _ => none

/-- Modelled from the spec: parse the lines of one blank-line-delimited block
into one raw token table. -/
def parseBlock : List String → Option (List Token)
  | [] => some []
  | l :: ls => (parseLine l).bind fun t => (parseBlock ls).map (t :: ·)

/-- Modelled from the spec: group the file's lines into blank-line-delimited
blocks; blank lines separate blocks and empty blocks are dropped. -/
def splitBlocksAux : List String → List String → List (List String)
  | [], acc => if acc.isEmpty then [] else [acc.reverse]
  | l :: ls, acc =>
    if l = "" then
      if acc.isEmpty then splitBlocksAux ls [] else acc.reverse :: splitBlocksAux ls []
    else splitBlocksAux ls (l :: acc)

/-- Modelled from the spec: the blocks of a line list. -/
def splitBlocks (lines : List String) : List (List String) :=
  splitBlocksAux lines []

/-- Modelled from the spec: parse every block of the file. -/
def parseBlocks : List (List String) → Option (List (List Token))
  | [] => some []
  | b :: bs => (parseBlock b).bind fun t => (parseBlocks bs).map (t :: ·)

/-- Modelled from the spec: `conllu.parse_incr` over a file embedded as its
list of lines — one raw token table per blank-line-delimited block. -/
def parse_incr (lines : List String) : Option (List (List Token)) :=
  parseBlocks (splitBlocks lines)

/-- The body of `read_conll` after the file is open: `parse_incr` each block,
then `yield from parse_conll(tokenlist)` for each raw table. -/
def readSentences (lines : List String) : Option (List (List Token)) :=
  (parse_incr lines).map (fun tls => tls.flatMap parse_conll)

/-- `read_conll` from `src/utils/conllu.py`.  The file system is embedded as a
map from paths to line lists; a path that cannot be opened or decoded maps to
`none`, embedding the `OSError`/`UnicodeDecodeError` Python raises. -/
def read_conll (fs : String → Option (List String)) (file_path : String) :
    Option (List (List Token)) :=
  match fs file_path with
  | none => none
  | some lines => readSentences lines

/-! ### Scorer and corpus-level evaluation

`pytorch/parser.py` accumulates `(UAS, LAS, count)` over per-sentence results
of `Evaluator.evaluate` (in `model.py`, absent from `src/`); the per-sentence
scorer is modelled from spec §4.5.  The counts are integers, so the Python
float accumulation is embedded over `Nat` (exact for these magnitudes); the
final division is embedded over `ℚ` with `Option` for Python's
`ZeroDivisionError`. -/

/-- Modelled from the spec: `Evaluator.evaluate` of `model.py` (absent from
`src/`), §4.5: over positions where the ignore-mask is false, count predicted
arcs matching gold, predicted arc-and-label pairs matching gold, and the
scored positions themselves.  A token is the pair (arc id, label id). -/
def evalSentence (pred gold : List (Nat × Nat)) (mask : List Bool) :
    Nat × Nat × Nat :=
  let rows := (pred.zip gold).zip mask
  (rows.countP (fun r => !r.2 && (r.1.1.1 == r.1.2.1)),
   rows.countP (fun r => !r.2 && (r.1.1.1 == r.1.2.1) && (r.1.1.2 == r.1.2.2)),
   rows.countP (fun r => !r.2))

/-- Elementwise sum of two `(unlabeled, labeled, count)` triples. -/
def addTriple (a b : Nat × Nat × Nat) : Nat × Nat × Nat :=
  (a.1 + b.1, a.2.1 + b.2.1, a.2.2 + b.2.2)

/-- The accumulation loop of `test` in `pytorch/parser.py`:
`UAS, LAS, count = UAS + _uas, LAS + _las, count + _count` folded over the
per-sentence results, from `(0, 0, 0)`. -/
def testTotals (scores : List (Nat × Nat × Nat)) : Nat × Nat × Nat :=
  scores.foldl addTriple (0, 0, 0)

/-- The final report of `test` in `pytorch/parser.py`:
`UAS / count * 100` and `LAS / count * 100`; Python raises
`ZeroDivisionError` when `count` is zero, embedded as `none`. -/
def finalReport (UAS LAS count : ℚ) : Option (ℚ × ℚ) :=
  if count = 0 then none else some (UAS / count * 100, LAS / count * 100)

/-- Modelled from the spec: the per-sentence comparison of the external scorer
`utils.eval` (absent from `src/`), §4.5/§4.6: gold and system token lists must
have equal length (else a defined error); every position is scored; a position
is unlabeled-correct when the heads agree and labeled-correct when heads and
labels agree.  A token is the pair (head id, label id). -/
def sentenceScore (gold sys : List (Nat × Nat)) : Option (Nat × Nat × Nat) :=
  if gold.length = sys.length then
    let pairs := gold.zip sys
    some (pairs.countP (fun p => p.1.1 == p.2.1),
          pairs.countP (fun p => p.1.1 == p.2.1 && p.1.2 == p.2.2),
          pairs.length)
  else none

/-- Modelled from the spec: score the aligned sentences of the two corpora;
a sentence-count mismatch is a defined error, not a truncation (§4.6). -/
def sentenceScores : List (List (Nat × Nat)) → List (List (Nat × Nat)) →
    Option (List (Nat × Nat × Nat))
  | [], [] => some []
  | g :: gs, s :: ss =>
    (sentenceScore g s).bind fun t => (sentenceScores gs ss).map (t :: ·)
  | _, _ => none

/-- Modelled from the spec: fold the per-sentence results into the single
corpus accumulator (§4.6). -/
def corpusScore (gold sys : List (List (Nat × Nat))) :
    Option (Nat × Nat × Nat) :=
  (sentenceScores gold sys).map (fun l => l.foldl addTriple (0, 0, 0))

/-- Modelled from the spec: `utils.eval.evaluate`'s reported scores, keyed
UAS/LAS with f1 values as percentages in [0, 100]; a zero scored-token total
is a defined error (§4.6). -/
def evalScores (gold sys : List (List (Nat × Nat))) : Option (ℚ × ℚ) :=
  (corpusScore gold sys).bind fun t =>
    if t.2.2 = 0 then none
    else some ((t.1 : ℚ) / (t.2.2 : ℚ) * 100, (t.2.1 : ℚ) / (t.2.2 : ℚ) * 100)

/-- A value of the result mapping of `evaluate`: a float score or a string. -/
inductive RVal where
  | num (q : ℚ) : RVal
  | str (s : String) : RVal
deriving DecidableEq, Repr

/-- `evaluate` from `src/utils/conllu.py`:
`dict(LAS=scores['LAS'].f1, UAS=scores['UAS'].f1, raw="")`, with the gold and
system corpora already loaded (each sentence a list of (head, label) pairs)
and the dict embedded as an association list in construction order. -/
def evaluate (gold sys : List (List (Nat × Nat))) :
    Option (List (String × RVal)) :=
  (evalScores gold sys).map fun s =>
    [("LAS", RVal.num s.2), ("UAS", RVal.num s.1), ("raw", RVal.str "")]

/-! ### Basic characterizations -/

/-- The append loop of `parse_conll` is a filter. -/
theorem foldl_append_ints (tl : List Token) (acc : List Token) :
    tl.foldl (fun acc t => if isIntId t then acc ++ [t] else acc) acc =
      acc ++ tl.filter isIntId := by
  induction tl generalizing acc with
  | nil => simp
  | cons t ts ih =>
    by_cases h : isIntId t
    · simp [List.foldl_cons, h, ih]
    · simp [List.foldl_cons, h, ih]

/-- Closed form of `parse_conll`: root prepended to the integer-id tokens in
order, yielded only when a real token survives. -/
theorem parse_conll_eq (tl : List Token) :
    parse_conll tl =
      if (tl.filter isIntId).isEmpty then [] else [create_root :: tl.filter isIntId] := by
  unfold parse_conll
  rw [foldl_append_ints]
  rcases h : tl.filter isIntId with _ | ⟨t, ts⟩ <;> simp

/-- A sample real token for concrete inputs. -/
def sampleTok (n : Int) (f : String) : Token :=
  { id := .vInt n
    form := .vStr f
    lemma_ := .vNone
    upos := .vStr "NOUN"
    xpos := .vStr "NN"
    feats := .vNone
    head := .vInt 0
    deprel := .vStr "root"
    deps := .vNone
    misc := .vNone }

/-- Claim C1: `parse_conll` yields exactly the canonical sentence made of the
fixed root token followed by the integer-id input tokens in their original
order, and yields nothing when no integer-id token exists. -/
theorem parse_conll_filters_int_ids (tl : List Token) :
    parse_conll tl =
      if (tl.filter isIntId).isEmpty then [] else [create_root :: tl.filter isIntId] :=
  parse_conll_eq tl

/-- Claim C9: every sentence yielded by `parse_conll` begins with the root
token whose sentinel field values are exactly id 0, form "<ROOT>",
lemma "<ROOT>", upos "ROOT", xpos "ROOT", feats "_", head 0, deprel "root",
deps "_", misc "_". -/
theorem parse_conll_root_sentinel (tl : List Token) (s : List Token)
    (hs : s ∈ parse_conll tl) :
    s.head? = some
      { id := .vInt 0
        form := .vStr "<ROOT>"
        lemma_ := .vStr "<ROOT>"
        upos := .vStr "ROOT"
        xpos := .vStr "ROOT"
        feats := .vStr "_"
        head := .vInt 0
        deprel := .vStr "root"
        deps := .vStr "_"
        misc := .vStr "_" } := by
  rw [parse_conll_eq] at hs
  split at hs
  · simp at hs
  · rw [List.mem_singleton] at hs
    subst hs
    rfl

/-- Witness for C9 at a concrete input. -/
theorem parse_conll_root_sentinel_witness :
    [create_root, sampleTok 1 "word"].head? = some
      { id := .vInt 0
        form := .vStr "<ROOT>"
        lemma_ := .vStr "<ROOT>"
        upos := .vStr "ROOT"
        xpos := .vStr "ROOT"
        feats := .vStr "_"
        head := .vInt 0
        deprel := .vStr "root"
        deps := .vStr "_"
        misc := .vStr "_" } :=
  parse_conll_root_sentinel [sampleTok 1 "word"] [create_root, sampleTok 1 "word"] (by decide)

/-- The id sequence the root invariant claims: position `n` carries integer
id `n` (root 0 first, then 1, 2, ... with no gaps). -/
def seqIdsB (s : List Token) : Bool :=
  decide (s.map (fun t => t.id) = (List.range s.length).map (fun n => FVal.vInt (Int.ofNat n)))

/-- Claim C5 counterexample: `parse_conll` does not renumber ids, so an input
whose only integer-id token has id 3 yields a (non-discarded) sentence whose
ids are 0, 3 — not sequential from 1 as claimed. -/
theorem parse_conll_ids_not_sequential_counterexample :
    parse_conll [sampleTok 3 "w"] ≠ [] ∧
      (parse_conll [sampleTok 3 "w"]).all seqIdsB = false := by
  decide

/-- Claim C5 (amended): every sentence yielded by `parse_conll` starts with
the root (id 0) followed by the integer-id input tokens unchanged; whenever
those input tokens carry the sequential ids 1, 2, ... in order — as in valid
CoNLL-U input — the yielded sentence's ids are exactly 0, 1, 2, ... with no
gaps.  (The code itself does not renumber or validate arbitrary ids.) -/
theorem parse_conll_ids_sequential (tl : List Token) (s : List Token)
    (hs : s ∈ parse_conll tl)
    (hseq : (tl.filter isIntId).map (fun t => t.id) =
      (List.range (tl.filter isIntId).length).map (fun n => FVal.vInt (Int.ofNat n + 1))) :
    s.map (fun t => t.id) = (List.range s.length).map (fun n => FVal.vInt (Int.ofNat n)) := by
  rw [parse_conll_eq] at hs
  split at hs
  · simp at hs
  · rw [List.mem_singleton] at hs
    subst hs
    have hfun : (fun n : Nat => FVal.vInt (Int.ofNat n + 1)) =
        (fun n : Nat => FVal.vInt (Int.ofNat n)) ∘ Nat.succ := by
      funext n
      simp [Function.comp, Int.ofNat_succ]
    rw [List.map_cons, List.length_cons, List.range_succ_eq_map, List.map_cons,
      List.map_map, hseq, hfun]
    rfl

/-- Witness for C5 (amended) at a concrete input. -/
theorem parse_conll_ids_sequential_witness :
    [create_root, sampleTok 1 "a", sampleTok 2 "b"].map (fun t => t.id) =
      (List.range [create_root, sampleTok 1 "a", sampleTok 2 "b"].length).map
        (fun n => FVal.vInt (Int.ofNat n)) :=
  parse_conll_ids_sequential [sampleTok 1 "a", sampleTok 2 "b"] _ (by decide) (by decide)

/-- Claim C4: the corpus accumulation loop of `test` is a true elementwise
sum — the totals for a two-sentence corpus equal the elementwise sum of the
totals obtained from each sentence alone. -/
theorem corpus_totals_additive (p1 g1 : List (Nat × Nat)) (m1 : List Bool)
    (p2 g2 : List (Nat × Nat)) (m2 : List Bool) :
    testTotals [evalSentence p1 g1 m1, evalSentence p2 g2 m2] =
      addTriple (testTotals [evalSentence p1 g1 m1])
        (testTotals [evalSentence p2 g2 m2]) := by
  simp [testTotals, addTriple]

/-- Claim C6: the final UAS/LAS computation of `test` is a defined error
(`none`, embedding Python's `ZeroDivisionError`) exactly when the corpus-wide
scored-token count is zero, and a legitimate 0% score is the distinct value
`some (0, 0)`. -/
theorem final_report_zero_count_error (UAS LAS count : ℚ) :
    (finalReport UAS LAS count = none ↔ count = 0) ∧
      finalReport 0 0 1 = some (0, 0) := by
  constructor
  · unfold finalReport
    split <;> simp_all
  · norm_num [finalReport]

/-- Claim C8: when the file cannot be opened or decoded, `read_conll` fails
with no partial iteration — the result is the error, carrying no sentences. -/
theorem read_conll_open_failure (fs : String → Option (List String))
    (file_path : String) (h : fs file_path = none) :
    read_conll fs file_path = none := by
  unfold read_conll
  rw [h]

/-- Witness for C8 at a concrete file system and path. -/
theorem read_conll_open_failure_witness :
    read_conll (fun _ => none) "gold.conllu" = none :=
  read_conll_open_failure (fun _ => none) "gold.conllu" rfl

/-! ### Writer format -/

/-- The inner token loop of `dump_conll` appends one line per non-root token. -/
theorem dump_inner_foldl (tokens : List Token) (out : List String) :
    tokens.foldl (fun acc t => if t.id = .vInt 0 then acc else acc ++ [lineOf t]) out =
      out ++ (tokens.filter (fun t => !decide (t.id = FVal.vInt 0))).map lineOf := by
  induction tokens generalizing out with
  | nil => simp
  | cons t ts ih =>
    by_cases h : t.id = FVal.vInt 0
    · simp [h, ih]
    · simp [h, ih]

/-- The outer loop of `dump_conll` concatenates one block per sentence. -/
theorem dump_outer_foldl (docs : List (List Token)) (init : List String) :
    docs.foldl
        (fun out tokens =>
          (tokens.foldl (fun acc t => if t.id = .vInt 0 then acc else acc ++ [lineOf t]) out)
            ++ [""]) init =
      init ++ docs.flatMap (fun tokens =>
        (tokens.filter (fun t => !decide (t.id = FVal.vInt 0))).map lineOf ++ [""]) := by
  induction docs generalizing init with
  | nil => simp
  | cons tokens rest ih =>
    rw [List.foldl_cons, dump_inner_foldl tokens init, ih, List.flatMap_cons]
    simp [List.append_assoc]

/-- Closed form of `dump_conll`: one block per sentence, one line per
non-root token, one blank line per sentence. -/
theorem dump_conll_eq_flatMap (docs : List (List Token)) :
    dump_conll docs =
      docs.flatMap (fun tokens =>
        (tokens.filter (fun t => !decide (t.id = FVal.vInt 0))).map lineOf ++ [""]) := by
  unfold dump_conll
  rw [dump_outer_foldl]
  rfl

/-- The column rendering asserted by the writer claim: a field whose value is
absent or the empty string renders as "_". -/
def claimedRender : FVal → String
  | .vNone => "_"
  | .vStr s => if s = "" then "_" else s
  | .vInt i => intStr i

/-- The block shape asserted by the writer claim, with `claimedRender`. -/
def claimedBlock (tokens : List Token) : List String :=
  (tokens.filter (fun t => !decide (t.id = FVal.vInt 0))).map
    (fun t => joinTabs
      [claimedRender t.id, claimedRender t.form, claimedRender t.lemma_,
       claimedRender t.upos, claimedRender t.xpos, claimedRender t.feats,
       claimedRender t.head, claimedRender t.deprel, claimedRender t.deps,
       claimedRender t.misc]) ++ [""]

/-- The writer output asserted by the writer claim. -/
def claimedDump (docs : List (List Token)) : List String :=
  docs.flatMap claimedBlock

/-- The column rendering of the amended writer claim: only an absent (`None`)
value renders as "_"; any present value renders via Python `str`, so an empty
string renders as an empty column. -/
def amendedRender : FVal → String
  | .vNone => "_"
  | .vStr s => s
  | .vInt i => intStr i

/-- The block shape of the amended writer claim. -/
def amendedBlock (tokens : List Token) : List String :=
  (tokens.filter (fun t => !decide (t.id = FVal.vInt 0))).map
    (fun t => joinTabs
      [amendedRender t.id, amendedRender t.form, amendedRender t.lemma_,
       amendedRender t.upos, amendedRender t.xpos, amendedRender t.feats,
       amendedRender t.head, amendedRender t.deprel, amendedRender t.deps,
       amendedRender t.misc]) ++ [""]

/-- The writer output of the amended writer claim. -/
def amendedDump (docs : List (List Token)) : List String :=
  docs.flatMap amendedBlock

/-- Claim C3 counterexample: a present-but-empty field is emitted as an empty
column, not as "_": on a token whose form is the empty string the writer's
output differs from the claimed one. -/
theorem dump_empty_field_counterexample :
    dump_conll [[sampleTok 1 ""]] ≠ claimedDump [[sampleTok 1 ""]] := by
  decide

/-- Claim C3 (amended): the writer emits each sentence as one block of one
tab-separated line per real token in the fixed column order id, form, lemma,
upos, xpos, feats, head, deprel, deps, misc; a token with id = 0 is never
emitted; a field whose value is absent renders as "_" (a present empty string
renders as an empty column); and a single blank line terminates each block. -/
theorem dump_conll_block_format (docs : List (List Token)) :
    dump_conll docs = amendedDump docs := by
  have hr : ∀ v, renderField v = amendedRender v := by
    intro v
    cases v <;> rfl
  have hline : lineOf = fun t => joinTabs
      [amendedRender t.id, amendedRender t.form, amendedRender t.lemma_,
       amendedRender t.upos, amendedRender t.xpos, amendedRender t.feats,
       amendedRender t.head, amendedRender t.deprel, amendedRender t.deps,
       amendedRender t.misc] := by
    funext t
    unfold lineOf tokenCols
    simp only [hr]
  rw [dump_conll_eq_flatMap]
  unfold amendedDump amendedBlock
  rw [hline]

/-! ### Corpus evaluation: result shape and score range -/

/-- A per-sentence score never counts more correct positions than it scores. -/
theorem sentenceScore_bounds (g s : List (Nat × Nat)) (x : Nat × Nat × Nat)
    (h : sentenceScore g s = some x) : x.1 ≤ x.2.2 ∧ x.2.1 ≤ x.2.2 := by
  unfold sentenceScore at h
  split at h
  · simp only [Option.some_inj] at h
    subst h
    exact ⟨(List.length_zip g s ▸ List.countP_le_length _),
      (List.length_zip g s ▸ List.countP_le_length _)⟩
  · simp at h

/-- Every per-sentence score in a corpus run satisfies the bound. -/
theorem sentenceScores_bounds (gs ss : List (List (Nat × Nat)))
    (l : List (Nat × Nat × Nat)) (h : sentenceScores gs ss = some l) :
    ∀ x ∈ l, x.1 ≤ x.2.2 ∧ x.2.1 ≤ x.2.2 := by
  induction gs generalizing ss l with
  | nil =>
    cases ss with
    | nil => simp [sentenceScores] at h; subst h; simp
    | cons s ss => simp [sentenceScores] at h
  | cons g gs ih =>
    cases ss with
    | nil => simp [sentenceScores] at h
    | cons s ss =>
      unfold sentenceScores at h
      cases hx : sentenceScore g s with
      | none =>
        rw [hx] at h
        simp at h
      | some x =>
        rw [hx, Option.some_bind] at h
        cases hrest : sentenceScores gs ss with
        | none =>
          rw [hrest] at h
          simp at h
        | some rest =>
          rw [hrest] at h
          simp only [Option.map_some', Option.some_inj] at h
          subst h
          intro y hy
          rcases List.mem_cons.mp hy with hy | hy
          · subst hy
            exact sentenceScore_bounds g s y hx
          · exact ih ss rest hrest y hy

/-- Folding per-sentence scores preserves the bound. -/
theorem foldl_addTriple_bounds (l : List (Nat × Nat × Nat)) (init : Nat × Nat × Nat)
    (hinit : init.1 ≤ init.2.2 ∧ init.2.1 ≤ init.2.2)
    (h : ∀ x ∈ l, x.1 ≤ x.2.2 ∧ x.2.1 ≤ x.2.2) :
    (l.foldl addTriple init).1 ≤ (l.foldl addTriple init).2.2 ∧
      (l.foldl addTriple init).2.1 ≤ (l.foldl addTriple init).2.2 := by
  induction l generalizing init with
  | nil => exact hinit
  | cons x xs ih =>
    refine ih (addTriple init x) ?_ (fun y hy => h y (List.mem_cons_of_mem x hy))
    have hx := h x (List.mem_cons_self x xs)
    exact ⟨Nat.add_le_add hinit.1 hx.1, Nat.add_le_add hinit.2 hx.2⟩

/-- A correct-over-scored ratio expressed as a percentage lies in [0, 100]. -/
theorem ratio_percent_bounds (a c : Nat) (hc : c ≠ 0) (h : a ≤ c) :
    0 ≤ (a : ℚ) / (c : ℚ) * 100 ∧ (a : ℚ) / (c : ℚ) * 100 ≤ 100 := by
  have hcq : (0 : ℚ) < (c : ℚ) := by
    exact_mod_cast Nat.pos_of_ne_zero hc
  constructor
  · positivity
  · have h1 : (a : ℚ) / (c : ℚ) ≤ 1 := by
      rw [div_le_one hcq]
      exact_mod_cast h
    nlinarith

/-- Claim C7: whenever `evaluate` returns a result mapping, its keys are LAS,
UAS, raw in that order and the UAS and LAS values are percentages in the range
[0, 100]. -/
theorem evaluate_keys_and_range (gold sys : List (List (Nat × Nat)))
    (r : List (String × RVal)) (h : evaluate gold sys = some r) :
    ∃ u l : ℚ,
      r = [("LAS", RVal.num l), ("UAS", RVal.num u), ("raw", RVal.str "")] ∧
      0 ≤ u ∧ u ≤ 100 ∧ 0 ≤ l ∧ l ≤ 100 := by
  unfold evaluate at h
  cases hes : evalScores gold sys with
  | none =>
    rw [hes] at h
    simp at h
  | some s =>
    rw [hes] at h
    simp only [Option.map_some', Option.some_inj] at h
    subst h
    unfold evalScores at hes
    cases hcs : corpusScore gold sys with
    | none =>
      rw [hcs] at hes
      simp at hes
    | some t =>
      rw [hcs] at hes
      rw [Option.some_bind] at hes
      by_cases hz : t.2.2 = 0
      · rw [if_pos hz] at hes
        simp at hes
      · rw [if_neg hz] at hes
        simp only [Option.some_inj] at hes
        unfold corpusScore at hcs
        rw [Option.map_eq_some'] at hcs
        obtain ⟨scores, hscores, hfold⟩ := hcs
        have hb := foldl_addTriple_bounds scores (0, 0, 0) (by simp)
          (sentenceScores_bounds gold sys scores hscores)
        rw [hfold] at hb
        have hu := ratio_percent_bounds t.1 t.2.2 hz hb.1
        have hl := ratio_percent_bounds t.2.1 t.2.2 hz hb.2
        exact ⟨s.1, s.2, by simp, by rw [← hes]; exact hu.1, by rw [← hes]; exact hu.2,
          by rw [← hes]; exact hl.1, by rw [← hes]; exact hl.2⟩

/-- Witness for C7 at a concrete pair of corpora. -/
theorem evaluate_keys_and_range_witness :
    ∃ u l : ℚ,
      ([("LAS", RVal.num 100), ("UAS", RVal.num 100), ("raw", RVal.str "")] :
          List (String × RVal)) =
        [("LAS", RVal.num l), ("UAS", RVal.num u), ("raw", RVal.str "")] ∧
      0 ≤ u ∧ u ≤ 100 ∧ 0 ≤ l ∧ l ≤ 100 :=
  evaluate_keys_and_range [[(2, 1)]] [[(2, 1)]] _ (by
    have hcs : corpusScore [[(2, 1)]] [[(2, 1)]] = some (1, 1, 1) := rfl
    unfold evaluate evalScores
    rw [hcs, Option.some_bind, if_neg (by decide)]
    simp only [Option.map_some', Option.some_inj]
    norm_num)

/-- Claim C10: whenever `evaluate` returns a mapping, it has exactly the three
keys LAS, UAS, raw, and the value at raw is always the empty string. -/
theorem evaluate_exact_keys_raw_empty (gold sys : List (List (Nat × Nat)))
    (r : List (String × RVal)) (h : evaluate gold sys = some r) :
    r.map Prod.fst = ["LAS", "UAS", "raw"] ∧
      r.lookup "raw" = some (RVal.str "") := by
  unfold evaluate at h
  cases hes : evalScores gold sys with
  | none =>
    rw [hes] at h
    simp at h
  | some s =>
    rw [hes] at h
    simp only [Option.map_some', Option.some_inj] at h
    subst h
    exact ⟨rfl, rfl⟩

/-- Witness for C10 at a concrete pair of corpora. -/
theorem evaluate_exact_keys_raw_empty_witness :
    ([("LAS", RVal.num 50), ("UAS", RVal.num 100), ("raw", RVal.str "")] :
        List (String × RVal)).map Prod.fst = ["LAS", "UAS", "raw"] ∧
      ([("LAS", RVal.num 50), ("UAS", RVal.num 100), ("raw", RVal.str "")] :
        List (String × RVal)).lookup "raw" = some (RVal.str "") :=
  evaluate_exact_keys_raw_empty [[(1, 1), (2, 2)]] [[(1, 1), (2, 0)]] _ (by
    have hcs : corpusScore [[(1, 1), (2, 2)]] [[(1, 1), (2, 0)]] = some (2, 1, 2) := rfl
    unfold evaluate evalScores
    rw [hcs, Option.some_bind, if_neg (by decide)]
    simp only [Option.map_some', Option.some_inj]
    norm_num)

/-! ### Round-trip: decimal rendering parses back -/

/-- A digit character parses back to its digit value. -/
theorem charDigitVal_digitCh : ∀ d < 10, charDigitVal (digitCh d) = some d := by
  decide

/-- A digit character is not a tab. -/
theorem digitCh_ne_tab : ∀ d < 10, digitCh d ≠ '\t' := by
  decide

/-- Digit parsing distributes over append. -/
theorem parseDigitsAux_append (xs ys : List Char) (acc : Nat) :
    parseDigitsAux (xs ++ ys) acc =
      (parseDigitsAux xs acc).bind (fun a => parseDigitsAux ys a) := by
  induction xs generalizing acc with
  | nil => rfl
  | cons c cs ih =>
    show (charDigitVal c).bind (fun d => parseDigitsAux (cs ++ ys) (acc * 10 + d)) =
      ((charDigitVal c).bind fun d => parseDigitsAux cs (acc * 10 + d)).bind
        (fun a => parseDigitsAux ys a)
    cases charDigitVal c with
    | none => rfl
    | some d =>
      rw [Option.some_bind, Option.some_bind]
      exact ih (acc * 10 + d)

/-- The digit list of a number is never empty (with positive fuel). -/
theorem natDigitsAux_ne_nil (fuel n : Nat) (h : 0 < fuel) :
    natDigitsAux fuel n ≠ [] := by
  cases fuel with
  | zero => exact absurd h (by simp)
  | succ f =>
    unfold natDigitsAux
    split
    · simp
    · simp

/-- Every character of a digit list is a digit character. -/
theorem natDigitsAux_mem (fuel n : Nat) (c : Char) (hc : c ∈ natDigitsAux fuel n) :
    ∃ d, d < 10 ∧ c = digitCh d := by
  induction fuel generalizing n with
  | zero => simp [natDigitsAux] at hc
  | succ f ih =>
    unfold natDigitsAux at hc
    split at hc
    · rw [List.mem_singleton] at hc
      exact ⟨n, by omega, hc⟩
    · rcases List.mem_append.mp hc with hc | hc
      · exact ih (n / 10) hc
      · rw [List.mem_singleton] at hc
        exact ⟨n % 10, Nat.mod_lt n (by omega), hc⟩

/-- Parsing the rendered digits of `n` starting from accumulator `acc` yields
`acc` shifted past the digits, plus `n`. -/
theorem parseDigitsAux_natDigitsAux (fuel : Nat) :
    ∀ n, n < fuel → ∀ acc,
      parseDigitsAux (natDigitsAux fuel n) acc =
        some (acc * 10 ^ (natDigitsAux fuel n).length + n) := by
  induction fuel with
  | zero =>
    intro n hn
    exact absurd hn (by omega)
  | succ f ih =>
    intro n hn acc
    by_cases h : n < 10
    · rw [show natDigitsAux (f + 1) n = [digitCh n] from by
        show (if n < 10 then [digitCh n] else natDigitsAux f (n / 10) ++ [digitCh (n % 10)]) = _
        rw [if_pos h]]
      show (charDigitVal (digitCh n)).bind (fun d => parseDigitsAux [] (acc * 10 + d)) =
        some (acc * 10 ^ 1 + n)
      rw [charDigitVal_digitCh n h, Option.some_bind]
      show some (acc * 10 + n) = some (acc * 10 ^ 1 + n)
      norm_num
    · have hrec : natDigitsAux (f + 1) n = natDigitsAux f (n / 10) ++ [digitCh (n % 10)] := by
        show (if n < 10 then [digitCh n] else natDigitsAux f (n / 10) ++ [digitCh (n % 10)]) = _
        rw [if_neg h]
      have hdiv : n / 10 < f := by
        have h1 : n / 10 < n := Nat.div_lt_self (by omega) (by omega)
        omega
      rw [hrec, parseDigitsAux_append, ih (n / 10) hdiv acc, Option.some_bind]
      show (charDigitVal (digitCh (n % 10))).bind
        (fun d => parseDigitsAux [] ((acc * 10 ^ (natDigitsAux f (n / 10)).length + n / 10) * 10 + d)) = _
      rw [charDigitVal_digitCh (n % 10) (Nat.mod_lt n (by omega)), Option.some_bind]
      show some ((acc * 10 ^ (natDigitsAux f (n / 10)).length + n / 10) * 10 + n % 10) = _
      rw [List.length_append, List.length_singleton, pow_succ]
      have hmod : n / 10 * 10 + n % 10 = n := by omega
      congr 1
      ring_nf
      omega

/-- The decimal rendering of a natural number parses back to it. -/
theorem parseDigits_natStr (n : Nat) : parseDigits (natStr n).data = some n := by
  have hne : natDigitsAux (n + 1) n ≠ [] := natDigitsAux_ne_nil (n + 1) n (Nat.succ_pos n)
  have hp := parseDigitsAux_natDigitsAux (n + 1) n (Nat.lt_succ_self n) 0
  rw [Nat.zero_mul, Nat.zero_add] at hp
  show parseDigits (natDigitsAux (n + 1) n) = some n
  rcases hcs : natDigitsAux (n + 1) n with _ | ⟨c, cs⟩
  · exact absurd hcs hne
  · rw [hcs] at hp
    exact hp

/-- The decimal rendering of a natural number id parses back as that int. -/
theorem parseId_natStr (n : Nat) : parseId (natStr n) = FVal.vInt (Int.ofNat n) := by
  unfold parseId
  rw [parseDigits_natStr]
  rfl

/-- The decimal rendering of a natural number contains no tab. -/
theorem natStr_no_tab (n : Nat) : '\t' ∉ (natStr n).data := by
  intro hmem
  obtain ⟨d, hd, hc⟩ := natDigitsAux_mem (n + 1) n '\t' hmem
  exact digitCh_ne_tab d hd hc.symm

/-- Rendering a nonnegative int is rendering its absolute natural value. -/
theorem renderField_int_nonneg (k : Int) (hk : 0 ≤ k) :
    renderField (FVal.vInt k) = natStr k.toNat := by
  show intStr k = natStr k.toNat
  unfold intStr
  rw [if_neg (by omega)]

/-- A rendered nonnegative int field parses back to the same int. -/
theorem parseId_renderField_int (k : Int) (hk : 0 ≤ k) :
    parseId (renderField (FVal.vInt k)) = FVal.vInt k := by
  rw [renderField_int_nonneg k hk, parseId_natStr]
  congr 1
  exact Int.toNat_of_nonneg hk

/-! ### Round-trip: one token line -/

/-- A string field of a canonical token: absent, or a string without tabs. -/
def strOk : FVal → Bool
  | .vNone => true
  | .vStr s => decide ('\t' ∉ s.data)
  | .vInt _ => false

/-- A canonical real token as the round-trip claim quantifies over it: an
integer id at least 1, a nonnegative integer head, and the remaining eight
fields absent or tab-free strings. -/
def wfTok (t : Token) : Bool :=
  (match t.id with | .vInt k => decide (1 ≤ k) | _ => false) &&
  (match t.head with | .vInt k => decide (0 ≤ k) | _ => false) &&
  strOk t.form && strOk t.lemma_ && strOk t.upos && strOk t.xpos &&
  strOk t.feats && strOk t.deprel && strOk t.deps && strOk t.misc

/-- The claim's read-back of one field: an absent value becomes the literal
string "_", any present value is unchanged. -/
def fillAbsent : FVal → FVal
  | .vNone => .vStr "_"
  | v => v

/-- The claim's read-back of one token: same id and head, absent fields
becoming "_". -/
def fillToken (t : Token) : Token :=
  { id := t.id
    form := fillAbsent t.form
    lemma_ := fillAbsent t.lemma_
    upos := fillAbsent t.upos
    xpos := fillAbsent t.xpos
    feats := fillAbsent t.feats
    head := t.head
    deprel := fillAbsent t.deprel
    deps := fillAbsent t.deps
    misc := fillAbsent t.misc }

/-- Reading back a rendered string field is the claim's read-back. -/
theorem strOk_render (v : FVal) (h : strOk v = true) :
    FVal.vStr (renderField v) = fillAbsent v := by
  cases v with
  | vNone => rfl
  | vStr s => rfl
  | vInt i => exact absurd h (by simp [strOk])

/-- A rendered string field contains no tab. -/
theorem strOk_no_tab (v : FVal) (h : strOk v = true) :
    '\t' ∉ (renderField v).data := by
  cases v with
  | vNone => decide
  | vStr s => simpa [strOk] using h
  | vInt i => exact absurd h (by simp [strOk])

/-- Splitting a tab-free character list gives one field. -/
theorem splitFieldsCh_no_tab (f : List Char) (hf : '\t' ∉ f) :
    splitFieldsCh f = [f] := by
  induction f with
  | nil => rfl
  | cons c cs ih =>
    have hc : ¬(c = '\t') := fun hx => hf (hx ▸ List.mem_cons_self c cs)
    have hcs : '\t' ∉ cs := fun hx => hf (List.mem_cons_of_mem c hx)
    show (if c = '\t' then [] :: splitFieldsCh cs
      else match splitFieldsCh cs with
        | [] => [[c]]
        | f :: fs => (c :: f) :: fs) = [c :: cs]
    rw [if_neg hc, ih hcs]

/-- Splitting a field, a tab, and a remainder peels off the field. -/
theorem splitFieldsCh_append (f rest : List Char) (hf : '\t' ∉ f) :
    splitFieldsCh (f ++ '\t' :: rest) = f :: splitFieldsCh rest := by
  induction f with
  | nil =>
    show (if '\t' = '\t' then [] :: splitFieldsCh rest
      else match splitFieldsCh rest with
        | [] => [['\t']]
        | f :: fs => ('\t' :: f) :: fs) = [] :: splitFieldsCh rest
    rw [if_pos rfl]
  | cons c cs ih =>
    have hc : ¬(c = '\t') := fun hx => hf (hx ▸ List.mem_cons_self c cs)
    have hcs : '\t' ∉ cs := fun hx => hf (List.mem_cons_of_mem c hx)
    show (if c = '\t' then [] :: splitFieldsCh (cs ++ '\t' :: rest)
      else match splitFieldsCh (cs ++ '\t' :: rest) with
        | [] => [[c]]
        | f :: fs => (c :: f) :: fs) = (c :: cs) :: splitFieldsCh rest
    rw [if_neg hc, ih hcs]

/-- `String.mk` undoes `String.data`. -/
theorem string_mk_data (s : String) : String.mk s.data = s := by
  cases s
  rfl

/-- Splitting the tab-join of tab-free columns recovers the columns. -/
theorem splitJoinTabs (cols : List String) (hne : cols ≠ [])
    (hnt : ∀ s ∈ cols, '\t' ∉ s.data) :
    (splitFieldsCh (joinTabs cols).data).map String.mk = cols := by
  induction cols with
  | nil => exact absurd rfl hne
  | cons c cs ih =>
    cases cs with
    | nil =>
      show (splitFieldsCh (joinTabs [c]).data).map String.mk = [c]
      rw [show joinTabs [c] = c from rfl,
        splitFieldsCh_no_tab c.data (hnt c (List.mem_cons_self c [])),
        List.map_singleton, string_mk_data]
    | cons c2 cs2 =>
      have hc : '\t' ∉ c.data := hnt c (List.mem_cons_self c (c2 :: cs2))
      have hdata : (joinTabs (c :: c2 :: cs2)).data =
          c.data ++ '\t' :: (joinTabs (c2 :: cs2)).data := by
        rw [show joinTabs (c :: c2 :: cs2) = c ++ "\t" ++ joinTabs (c2 :: cs2) from rfl,
          String.data_append, String.data_append, List.append_assoc,
          show ("\t" : String).data = ['\t'] from by decide]
        rfl
      rw [hdata, splitFieldsCh_append c.data _ hc, List.map_cons, string_mk_data]
      rw [ih (by simp) (fun s hs => hnt s (List.mem_cons_of_mem c hs))]

/-- Parsing the line written for a canonical token gives the token with its
absent fields read back as "_". -/
theorem parseLine_lineOf (t : Token) (h : wfTok t = true) :
    parseLine (lineOf t) = some (fillToken t) := by
  obtain ⟨tid, tform, tlem, tupos, txpos, tfeats, thead, tdeprel, tdeps, tmisc⟩ := t
  unfold wfTok at h
  simp only [Bool.and_eq_true] at h
  obtain ⟨⟨⟨⟨⟨⟨⟨⟨⟨hid, hhead⟩, hform⟩, hlem⟩, hupos⟩, hxpos⟩, hfeats⟩, hdeprel⟩, hdeps⟩,
    hmisc⟩ := h
  cases tid with
  | vNone => exact absurd hid (by simp)
  | vStr s => exact absurd hid (by simp)
  | vInt k =>
  cases thead with
  | vNone => exact absurd hhead (by simp)
  | vStr s => exact absurd hhead (by simp)
  | vInt m =>
  have hk : (1 : Int) ≤ k := by simpa using hid
  have hm : (0 : Int) ≤ m := by simpa using hhead
  have hsplit := splitJoinTabs (tokenCols
    ⟨.vInt k, tform, tlem, tupos, txpos, tfeats, .vInt m, tdeprel, tdeps, tmisc⟩)
    (by simp [tokenCols])
    (by
      intro s hs
      simp only [tokenCols, List.mem_cons, List.not_mem_nil, or_false] at hs
      rcases hs with h | h | h | h | h | h | h | h | h | h <;> subst h
      · rw [renderField_int_nonneg k (by omega)]
        exact natStr_no_tab _
      · exact strOk_no_tab _ hform
      · exact strOk_no_tab _ hlem
      · exact strOk_no_tab _ hupos
      · exact strOk_no_tab _ hxpos
      · exact strOk_no_tab _ hfeats
      · rw [renderField_int_nonneg m hm]
        exact natStr_no_tab _
      · exact strOk_no_tab _ hdeprel
      · exact strOk_no_tab _ hdeps
      · exact strOk_no_tab _ hmisc)
  unfold parseLine lineOf
  rw [hsplit]
  show some _ = some _
  rw [parseId_renderField_int k (by omega), parseId_renderField_int m hm,
    strOk_render _ hform, strOk_render _ hlem, strOk_render _ hupos,
    strOk_render _ hxpos, strOk_render _ hfeats, strOk_render _ hdeprel,
    strOk_render _ hdeps, strOk_render _ hmisc]
  rfl

/-! ### Round-trip: blocks and the full composition -/

/-- A joined line of at least two columns is never the empty line. -/
theorem joinTabs_cons_cons_ne_empty (a b : String) (cs : List String) :
    joinTabs (a :: b :: cs) ≠ "" := by
  intro h
  have hd : (joinTabs (a :: b :: cs)).data = [] := by
    rw [h]
  rw [show joinTabs (a :: b :: cs) = a ++ "\t" ++ joinTabs (b :: cs) from rfl,
    String.data_append, String.data_append, List.append_assoc,
    show ("\t" : String).data = ['\t'] from by decide] at hd
  exact absurd (List.append_eq_nil.mp hd).2 (by simp)

/-- A written token line is never the blank separator line. -/
theorem lineOf_ne_empty (t : Token) : lineOf t ≠ "" := by
  show joinTabs (tokenCols t) ≠ ""
  unfold tokenCols
  exact joinTabs_cons_cons_ne_empty _ _ _

/-- Grouping peels one block of nonempty lines off at its blank line. -/
theorem splitBlocksAux_block (blines rest : List String) :
    ∀ acc, blines ≠ [] → (∀ l ∈ blines, l ≠ "") →
      splitBlocksAux (blines ++ "" :: rest) acc =
        (acc.reverse ++ blines) :: splitBlocksAux rest [] := by
  induction blines with
  | nil =>
    intro acc hne _
    exact absurd rfl hne
  | cons l ls ih =>
    intro acc _ hnb
    have hl : l ≠ "" := hnb l (List.mem_cons_self l ls)
    rw [List.cons_append]
    simp only [splitBlocksAux]
    rw [if_neg hl]
    cases ls with
    | nil =>
      simp only [List.nil_append, splitBlocksAux]
      simp
    | cons l2 ls2 =>
      rw [ih (l :: acc) (by simp) (fun x hx => hnb x (List.mem_cons_of_mem l hx)),
        List.reverse_cons, List.append_assoc]
      rfl

/-- Parsing the written lines of well-formed tokens recovers the tokens with
absent fields read back as "_". -/
theorem parseBlock_map_lineOf (real : List Token)
    (h : ∀ t ∈ real, wfTok t = true) :
    parseBlock (real.map lineOf) = some (real.map fillToken) := by
  induction real with
  | nil => rfl
  | cons t ts ih =>
    rw [List.map_cons, List.map_cons]
    show (parseLine (lineOf t)).bind
      (fun x => (parseBlock (ts.map lineOf)).map (x :: ·)) = _
    rw [parseLine_lineOf t (h t (List.mem_cons_self t ts)), Option.some_bind,
      ih (fun x hx => h x (List.mem_cons_of_mem t hx))]
    rfl

/-- A well-formed token has an integer id. -/
theorem wfTok_isIntId (t : Token) (h : wfTok t = true) : isIntId t = true := by
  unfold wfTok at h
  simp only [Bool.and_eq_true] at h
  have h1 := h.1.1.1.1.1.1.1.1.1
  cases ht : t.id with
  | vInt k => simp [isIntId, ht]
  | vNone => rw [ht] at h1; simp at h1
  | vStr s => rw [ht] at h1; simp at h1

/-- A well-formed token's id is not the root id. -/
theorem wfTok_id_ne_zero (t : Token) (h : wfTok t = true) :
    ¬(t.id = FVal.vInt 0) := by
  unfold wfTok at h
  simp only [Bool.and_eq_true] at h
  have h1 := h.1.1.1.1.1.1.1.1.1
  intro hcon
  rw [hcon] at h1
  simp at h1

/-- Claim C2: writing a canonical sentence with `dump_conll` and re-reading
the output with the reader yields a sentence with the same real tokens in the
same order and identical field values, except that a field whose value was
absent (`None`) at write time reads back as the literal string "_"
(`fillToken`). -/
theorem dump_read_round_trip (real : List Token) (hne : real ≠ [])
    (hwf : ∀ t ∈ real, wfTok t = true) :
    readSentences (dump_conll [create_root :: real]) =
      some [create_root :: real.map fillToken] := by
  have hdump : dump_conll [create_root :: real] = real.map lineOf ++ [""] := by
    rw [dump_conll_eq_flatMap]
    simp only [List.flatMap_cons, List.flatMap_nil, List.append_nil]
    congr 1
    rw [List.filter_cons, if_neg (by decide)]
    congr 1
    exact List.filter_eq_self.mpr (fun t ht => by
      simpa using wfTok_id_ne_zero t (hwf t ht))
  rw [hdump]
  unfold readSentences parse_incr splitBlocks
  rw [show real.map lineOf ++ [""] = real.map lineOf ++ "" :: ([] : List String) from rfl,
    splitBlocksAux_block (real.map lineOf) [] []
      (fun hcon => hne (List.map_eq_nil_iff.mp hcon))
      (fun l hl => by
        obtain ⟨t, ht, rfl⟩ := List.mem_map.mp hl
        exact lineOf_ne_empty t)]
  rw [List.reverse_nil, List.nil_append]
  rw [show splitBlocksAux ([] : List String) [] = [] from rfl]
  show (parseBlocks [real.map lineOf]).map (fun tls => tls.flatMap parse_conll) = _
  rw [show parseBlocks [real.map lineOf] =
      (parseBlock (real.map lineOf)).bind
        (fun t => (parseBlocks []).map (t :: ·)) from rfl,
    parseBlock_map_lineOf real hwf, Option.some_bind]
  show some ((parse_conll (real.map fillToken)) ++ []) = _
  have hpc : parse_conll (real.map fillToken) =
      [create_root :: real.map fillToken] := by
    rw [parse_conll_eq]
    have hfill : ∀ t ∈ real.map fillToken, isIntId t = true := by
      intro t ht
      obtain ⟨x, hx, rfl⟩ := List.mem_map.mp ht
      have hx' := wfTok_isIntId x (hwf x hx)
      show isIntId (fillToken x) = true
      unfold isIntId at hx' ⊢
      exact hx'
    rw [List.filter_eq_self.mpr hfill]
    have hmapne : real.map fillToken ≠ [] := fun hcon => hne (List.map_eq_nil_iff.mp hcon)
    rw [if_neg (by simpa [List.isEmpty_iff] using hmapne)]
  rw [hpc, List.append_nil]

/-- Witness for C2 at a concrete one-token sentence. -/
theorem dump_read_round_trip_witness :
    readSentences (dump_conll [create_root :: [sampleTok 1 "hi"]]) =
      some [create_root :: [sampleTok 1 "hi"].map fillToken] :=
  dump_read_round_trip [sampleTok 1 "hi"] (by decide) (by decide)

end Biaffine
